import Mathlib

/-!
Verification of the fuzzy-matching scoring core and candidate/edit data model
of this repository against its specification.

The scoring module itself (`coq/shared/fuzzy.py`, exposing `dl_distance`,
`quick_ratio` and `metrics`) is not part of the source tree here; only its
reference tests (`src/tests/shared/fuzzy.py`) are.  Those three functions are
therefore modelled from the specification (sections 4.1 to 4.3), and each such
definition carries a doc comment starting with "Modelled from the spec:" that
records exactly which reading of the spec it takes.  The `Edit` family,
`sanitize`, and the `Completion` record are embedded directly from
`src/coq/shared/types.py`, `src/coq/shared/repeat.py` and
`src/coq/clients/tags/worker.py`.

Strings are modelled as their underlying lists of Unicode scalar values
(`String.data`); Python floats are modelled as exact rationals, which is
faithful for the small integer ratios the spec pins down.
-/

set_option maxHeartbeats 1000000

/-- Modelled from the spec: one row step of the section 4.1 dynamic program for
`dl_distance` (the file `coq/shared/fuzzy.py` that implements it is absent from
the source tree).  Given row index `i + 1` of the `(|a|+1) x (|b|+1)` matrix,
the row `pp` two above, and the row `p` directly above, this computes the row's
cells: column `0` is the deletion column `i + 1`; cell `j + 1` is the minimum
of delete (`p (j+1) + 1`), insert (previous cell of this row `+ 1`), substitute
(`p j` plus `0` or `1` according to `a[i] == b[j]`), and, exactly under the
spec's guard `i > 1, j > 1, a[i-1] == b[j-2], a[i-2] == b[j-1]` (stated here in
zero-based form), the adjacent-transposition cost `pp (j-1) + 1`. -/
def osaRow (a b : List Char) (i : Nat) (pp p : Nat → Nat) : Nat → Nat
  | 0 => i + 1
  | j + 1 =>
    let best := min (p (j + 1) + 1)
      (min (osaRow a b i pp p j + 1)
        (p j + (if a[i]? = b[j]? then 0 else 1)))
    if 0 < i ∧ 0 < j ∧ a[i]? = b[j - 1]? ∧ a[i - 1]? = b[j]? then
      min best (pp (j - 1) + 1)
    else
      best

/-- Modelled from the spec: the section 4.1 distance matrix in the
space-optimized rolling-rows form the spec explicitly allows.  `osaGo a b i`
is row `i` of the matrix (as a function of the column); row `0` is the
insertion row `fun j => j`, and each later row is produced by `osaRow` from
the two rows before it (row `1` needs no two-back row, since the
transposition guard requires a row index above `1`).  The lemmas
`osaGo_zero_left`, `osaGo_succ_zero` and `osaGo_rec` below prove that this
definition satisfies the spec's cell recurrence verbatim. -/
def osaGo (a b : List Char) : Nat → Nat → Nat
  | 0 => fun j => j
  | 1 => osaRow a b 0 (fun j => j) (fun j => j)
  | i + 2 => osaRow a b (i + 1) (osaGo a b i) (osaGo a b (i + 1))

/-- Modelled from the spec: `dl_distance` of section 4.1, the corner value
`d[|a|][|b|]` of the dynamic program, on the character sequences of the two
input strings. -/
def dl_distance (lhs rhs : String) : Nat :=
  osaGo lhs.data rhs.data lhs.data.length rhs.data.length

/-- Modelled from the spec: the `matches` count of section 4.2 -- for each
distinct character of the union of the two strings, the minimum of its
occurrence counts on the two sides, summed. -/
def msMatches (l r : List Char) : Nat :=
  ((l ++ r).dedup.map (fun c => min (l.count c) (r.count c))).sum

/-- Modelled from the spec: `quick_ratio` of section 4.2 (its implementation
file `coq/shared/fuzzy.py` is absent from the source tree).  Section 4.2's bare
formula is `2 * matches / (len lhs + len rhs)`, but the repository's own
reference test (`QuickRatio.test_1`: `quick_ratio("a", "ab")` is `1`, not
`2/3`) forces the two strings to be cut to the length of the shorter one
first; with that truncation the formula reproduces all four in-repo fixtures
and keeps the symmetry and `[0, 1]` range contracts of sections 3 and 4.2.
When both strings are empty the result is `1`, the spec's mandated guard
against division by zero.  (Rational division is total in Lean, so the
remaining degenerate corner -- one empty string, where the truncated lengths
are `0` -- yields `0` rather than an exception; the spec does not pin that
corner down.)  The unmodified section 4.2 formula is kept alongside as
`quick_ratio_claimed` for comparison. -/
def quick_ratio (lhs rhs : String) : ℚ :=
  if lhs.data.length + rhs.data.length = 0 then 1
  else
    let n := min lhs.data.length rhs.data.length
    let l := lhs.data.take n
    let r := rhs.data.take n
    (2 * msMatches l r : ℚ) / ((l.length : ℚ) + (r.length : ℚ))

/-- Modelled from the spec: the literal formula of section 4.2 and of claim C3,
`2 * matches / (len lhs + len rhs)` over the untruncated strings, with the
both-empty case defined as `1`.  This is the wording of the claim, written
out so it can be compared against `quick_ratio` above. -/
def quick_ratio_claimed (lhs rhs : String) : ℚ :=
  if lhs.data.length + rhs.data.length = 0 then 1
  else
    (2 * msMatches lhs.data rhs.data : ℚ)
      / ((lhs.data.length : ℚ) + (rhs.data.length : ℚ))

/-- Modelled from the spec: the prefix-match count of section 4.3 -- leading
characters of the query and the candidate compared one by one from index 0,
case-sensitively, stopping at the first mismatch. -/
def prefixMatches : List Char → List Char → Nat
  | x :: xs, y :: ys => if x = y then prefixMatches xs ys + 1 else 0
  | _, _ => 0

/-- Modelled from the spec: the `Metrics` value type of section 3 -- two
non-negative integers, pure data. -/
structure Metrics where
  prefix_matches : Nat
  edit_distance : Nat
deriving DecidableEq

/-- Modelled from the spec: `metrics` of section 4.3 (its implementation file
`coq/shared/fuzzy.py` is absent from the source tree).  `prefix_matches` is
the longest-common-literal-prefix length.  For `edit_distance`, section 4.3's
bare wording is `dl_distance(cword, match)`, but the repository's own
reference test (`Metrics.test_1`: `metrics("ab", "abab")` has
`edit_distance == 0`) is incompatible with that wording, and section 9 of the
spec itself names the alternative consistent with the fixture -- "distance
computed only over the shared prefix window".  That reading is taken here:
the candidate is truncated to the query's length before the distance is
computed.  It agrees with the section 4.3 wording whenever the candidate is
no longer than the query. -/
def metrics (cword cand : String) : Metrics :=
  { prefix_matches := prefixMatches cword.data cand.data
    edit_distance := dl_distance cword ⟨cand.data.take cword.data.length⟩ }

/-- From `src/coq/shared/types.py` (`class SnippetGrammar(Enum)`): the two
snippet grammars, `lsp` and `snu`. -/
inductive SnippetGrammar
  | lsp
  | snu
deriving DecidableEq

/-- From `src/coq/shared/types.py`: the `Edit` family, modelled as the closed
tagged union that section 9 of the spec prescribes for this duck-typed
hierarchy.  Variants carry the fields of the corresponding Python dataclasses:
`plain` is bare `Edit(new_text)`; `contextual` is `ContextualEdit` with its
`old_prefix`, `new_prefix` and `old_suffix` strings; `range` is `RangeEdit`
with `fallback`, the two `WTF8Pos` endpoints (pairs of integers) and the
encoding literal (kept as a string); `snippet` is `SnippetEdit` with its
grammar; `snippetRange` is `SnippetRangeEdit`, inheriting the fields of both
`SnippetEdit` and `RangeEdit`. -/
inductive Edit
  | plain (new_text : String)
  | contextual (new_text old_prefix new_prefix old_suffix : String)
  | range (new_text fallback : String) (begin_pos end_pos : Int × Int) (encoding : String)
  | snippet (new_text : String) (grammar : SnippetGrammar)
  | snippetRange (new_text fallback : String) (begin_pos end_pos : Int × Int)
      (encoding : String) (grammar : SnippetGrammar)
deriving DecidableEq

/-- From `src/coq/shared/repeat.py`, `sanitize`: the branches mirror its
`isinstance` chain in order -- `SnippetRangeEdit` first (a `SnippetEdit` with
the same grammar and text when the fallback equals the new text, otherwise a
bare `Edit` holding the fallback), then `SnippetEdit` (returned as is), then
`RangeEdit` (a bare `Edit` holding the fallback), and otherwise a bare `Edit`
holding the input's `new_text`. -/
def sanitize : Edit → Edit
  | .snippetRange nt fb _ _ _ g => if fb = nt then .snippet nt g else .plain fb
  | .snippet nt g => .snippet nt g
  | .range _ fb _ _ _ => .plain fb
  | .plain nt => .plain nt
  | .contextual nt _ _ _ => .plain nt

/-- Discriminator for the `RangeEdit` variant (an `isinstance(_, RangeEdit)`
check restricted to the exact class, `SnippetRangeEdit` excluded). -/
def isRangeEdit : Edit → Bool
  | .range _ _ _ _ _ => true
  | _ => false

/-- Discriminator for the `SnippetRangeEdit` variant. -/
def isSnippetRangeEdit : Edit → Bool
  | .snippetRange _ _ _ _ _ _ => true
  | _ => false

/-- From `src/coq/shared/types.py`, the `Completion` dataclass (lines 142-156),
field for field: `source`, `weight_adjust` (a float, modelled as a rational),
`label`, `sort_by`, `primary_edit`, `icon_match`, then the defaulted fields
`uid` (a UUID fresh per record, modelled as a number), `secondary_edits`
(`Sequence[RangeEdit]` in the source, held here as edits), `preselect`,
`kind`, `doc` (`Optional[Doc]`, a text/syntax pair) and the optional LSP/Lua
or path payload the source names `extern` (held here as `extern_payload` and
collapsed to its textual identity, which no claim inspects).  Note the record
has no integer tie-breaker field. -/
structure Completion where
  source : String
  weight_adjust : ℚ
  label : String
  sort_by : String
  primary_edit : Edit
  icon_match : Option String
  uid : Nat
  secondary_edits : List Edit
  preselect : Bool
  kind : String
  doc : Option (String × String)
  extern_payload : Option String

/-- From `src/coq/shared/types.py` lines 142-156: the keyword parameters the
`Completion` dataclass constructor accepts, in declaration order. -/
def completionFieldNames : List String :=
  ["source", "weight_adjust", "label", "sort_by", "primary_edit", "icon_match",
   "uid", "secondary_edits", "preselect", "kind", "doc", "extern"]

/-- From `src/coq/shared/types.py` lines 142-156: the `Completion` fields with
no default value, which a constructor call must therefore supply. -/
def completionRequiredFieldNames : List String :=
  ["source", "weight_adjust", "label", "sort_by", "primary_edit", "icon_match"]

/-- From `src/coq/clients/tags/worker.py` lines 77-81: the keyword arguments
the tags worker's `Worker.work` passes when it constructs a `Completion`. -/
def tagsWorkerCompletionKwargs : List String :=
  ["source", "tie_breaker", "primary_edit"]

/-- Python dataclass keyword-call semantics: a call `C(**kwargs)` succeeds
exactly when every supplied keyword is a declared field and every field
without a default is supplied; otherwise `__init__` raises `TypeError`. -/
def dataclassCallOk (declared required kwargs : List String) : Bool :=
  kwargs.all (fun k => declared.contains k) && required.all (fun f => kwargs.contains f)

/-- Row `0` of the distance matrix is the insertion row. -/
lemma osaGo_zero_left (a b : List Char) (j : Nat) : osaGo a b 0 j = j := rfl

/-- Column `0` of the distance matrix is the deletion column. -/
lemma osaGo_succ_zero (a b : List Char) (i : Nat) : osaGo a b (i + 1) 0 = i + 1 := by
  cases i <;> rfl

/-- The rolling-rows definition satisfies the section 4.1 cell recurrence
verbatim: interior cell `(i+1, j+1)` is the minimum of delete, insert and
substitute costs, improved by the transposition cost `d[i-1][j-1] + 1`
exactly under the spec's guard. -/
lemma osaGo_rec (a b : List Char) (i j : Nat) :
    osaGo a b (i + 1) (j + 1) =
      if 0 < i ∧ 0 < j ∧ a[i]? = b[j - 1]? ∧ a[i - 1]? = b[j]? then
        min (min (osaGo a b i (j + 1) + 1)
          (min (osaGo a b (i + 1) j + 1)
            (osaGo a b i j + (if a[i]? = b[j]? then 0 else 1))))
          (osaGo a b (i - 1) (j - 1) + 1)
      else
        min (osaGo a b i (j + 1) + 1)
          (min (osaGo a b (i + 1) j + 1)
            (osaGo a b i j + (if a[i]? = b[j]? then 0 else 1))) := by
  cases i <;> rfl

/-- The distance matrix of `(a, b)` is the transpose of the matrix of
`(b, a)`: every cost term of the recurrence is symmetric under swapping the
strings together with the indices. -/
lemma osaGo_symm (a b : List Char) :
    ∀ n i j, i + j ≤ n → osaGo a b i j = osaGo b a j i := by
  intro n
  induction n with
  | zero =>
    intro i j hn
    obtain ⟨rfl, rfl⟩ : i = 0 ∧ j = 0 := by omega
    rfl
  | succ n ih =>
    intro i j hn
    rcases i with _ | i <;> rcases j with _ | j
    · rfl
    · rw [osaGo_zero_left, osaGo_succ_zero]
    · rw [osaGo_succ_zero, osaGo_zero_left]
    · rw [osaGo_rec, osaGo_rec]
      rw [ih i (j + 1) (by omega), ih (i + 1) j (by omega), ih i j (by omega),
        ih (i - 1) (j - 1) (by omega)]
      by_cases hg : a[i]? = b[j]?
      · rw [if_pos hg, if_pos hg.symm]
        by_cases hC : 0 < i ∧ 0 < j ∧ a[i]? = b[j - 1]? ∧ a[i - 1]? = b[j]?
        · rw [if_pos hC, if_pos (show 0 < j ∧ 0 < i ∧ b[j]? = a[i - 1]? ∧ b[j - 1]? = a[i]? from
            ⟨hC.2.1, hC.1, hC.2.2.2.symm, hC.2.2.1.symm⟩)]
          omega
        · rw [if_neg hC,
            if_neg (show ¬(0 < j ∧ 0 < i ∧ b[j]? = a[i - 1]? ∧ b[j - 1]? = a[i]?) from
              fun hcc => hC ⟨hcc.2.1, hcc.1, hcc.2.2.2.symm, hcc.2.2.1.symm⟩)]
          omega
      · rw [if_neg hg, if_neg (show ¬b[j]? = a[i]? from fun hgg => hg hgg.symm)]
        by_cases hC : 0 < i ∧ 0 < j ∧ a[i]? = b[j - 1]? ∧ a[i - 1]? = b[j]?
        · rw [if_pos hC, if_pos (show 0 < j ∧ 0 < i ∧ b[j]? = a[i - 1]? ∧ b[j - 1]? = a[i]? from
            ⟨hC.2.1, hC.1, hC.2.2.2.symm, hC.2.2.1.symm⟩)]
          omega
        · rw [if_neg hC,
            if_neg (show ¬(0 < j ∧ 0 < i ∧ b[j]? = a[i - 1]? ∧ b[j - 1]? = a[i]?) from
              fun hcc => hC ⟨hcc.2.1, hcc.1, hcc.2.2.2.symm, hcc.2.2.1.symm⟩)]
          omega

/-- Two prefixes of equal one-longer length agree exactly when the shorter
prefixes agree and the next characters agree. -/
lemma take_succ_eq_iff (a b : List Char) (i j : Nat) (hi : i < a.length) (hj : j < b.length) :
    a.take (i + 1) = b.take (j + 1) ↔ (a.take i = b.take j ∧ a[i]? = b[j]?) := by
  rw [List.take_succ, List.take_succ, List.getElem?_eq_getElem hi, List.getElem?_eq_getElem hj]
  constructor
  · intro h
    have hij : i = j := by
      have hlen := congrArg List.length h
      simp only [List.length_append, List.length_take, Option.toList_some, List.length_cons,
        List.length_nil] at hlen
      omega
    subst hij
    have hparts := List.append_inj h (by
      simp only [List.length_take]
      omega)
    refine ⟨hparts.1, ?_⟩
    have := hparts.2
    simp only [Option.toList_some, List.cons.injEq] at this
    rw [this.1]
  · rintro ⟨h1, h2⟩
    simp only [Option.some.injEq] at h2
    rw [h1, h2]

/-- A cell of the distance matrix is `0` exactly when the corresponding
prefixes of the two strings are equal: insert, delete and transposition costs
are all at least `1`, so a zero cell forces the diagonal path with zero
substitution cost throughout. -/
lemma osaGo_eq_zero_iff (a b : List Char) :
    ∀ n i j, i + j ≤ n → i ≤ a.length → j ≤ b.length →
      (osaGo a b i j = 0 ↔ a.take i = b.take j) := by
  intro n
  induction n with
  | zero =>
    intro i j hn hi hj
    obtain ⟨rfl, rfl⟩ : i = 0 ∧ j = 0 := by omega
    simp [osaGo_zero_left]
  | succ n ih =>
    intro i j hn hi hj
    rcases i with _ | i <;> rcases j with _ | j
    · simp [osaGo_zero_left]
    · rw [osaGo_zero_left]
      cases b with
      | nil => simp at hj
      | cons y ys => simp
    · rw [osaGo_succ_zero]
      cases a with
      | nil => simp at hi
      | cons x xs => simp
    · have hi' : i < a.length := by omega
      have hj' : j < b.length := by omega
      rw [osaGo_rec, take_succ_eq_iff a b i j hi' hj']
      have ihS := ih i j (by omega) (by omega) (by omega)
      constructor
      · intro h0
        have hb : min (osaGo a b i (j + 1) + 1)
            (min (osaGo a b (i + 1) j + 1)
              (osaGo a b i j + (if a[i]? = b[j]? then 0 else 1))) = 0 := by
          by_cases hC : 0 < i ∧ 0 < j ∧ a[i]? = b[j - 1]? ∧ a[i - 1]? = b[j]?
          · rw [if_pos hC] at h0
            omega
          · rw [if_neg hC] at h0
            exact h0
        by_cases hc : a[i]? = b[j]?
        · rw [if_pos hc] at hb
          exact ⟨ihS.mp (by omega), hc⟩
        · rw [if_neg hc] at hb
          omega
      · rintro ⟨ht, hc⟩
        have hS : osaGo a b i j = 0 := ihS.mpr ht
        have hb : min (osaGo a b i (j + 1) + 1)
            (min (osaGo a b (i + 1) j + 1)
              (osaGo a b i j + (if a[i]? = b[j]? then 0 else 1))) = 0 := by
          rw [if_pos hc]
          omega
        by_cases hC : 0 < i ∧ 0 < j ∧ a[i]? = b[j - 1]? ∧ a[i - 1]? = b[j]?
        · rw [if_pos hC]
          omega
        · rw [if_neg hC]
          exact hb

/-- Evaluation scheme for `quick_ratio` off the both-empty case, reducing a
concrete value to pre-computed match and length counts. -/
lemma quick_ratio_eval (lhs rhs : String) (m dl dr : Nat)
    (hne : ¬lhs.data.length + rhs.data.length = 0)
    (hm : msMatches (lhs.data.take (min lhs.data.length rhs.data.length))
        (rhs.data.take (min lhs.data.length rhs.data.length)) = m)
    (hdl : (lhs.data.take (min lhs.data.length rhs.data.length)).length = dl)
    (hdr : (rhs.data.take (min lhs.data.length rhs.data.length)).length = dr) :
    quick_ratio lhs rhs = (2 * m : ℚ) / ((dl : ℚ) + (dr : ℚ)) := by
  simp only [ quick_ratio, if_neg hne, hm, hdl, hdr]

/-- Evaluation scheme for the claimed section 4.2 formula. -/
lemma quick_ratio_claimed_eval (lhs rhs : String) (m dl dr : Nat)
    (hne : ¬lhs.data.length + rhs.data.length = 0)
    (hm : msMatches lhs.data rhs.data = m)
    (hdl : lhs.data.length = dl)
    (hdr : rhs.data.length = dr) :
    quick_ratio_claimed lhs rhs = (2 * m : ℚ) / ((dl : ℚ) + (dr : ℚ)) := by
  simp only [ quick_ratio_claimed]
  rw [if_neg hne, hm, hdl, hdr]

/-- Fixture value: the modelled ratio of "a" against "ab" is 1. -/
lemma qr_a_ab : quick_ratio "a" "ab" = 1 := by
  rw [ quick_ratio_eval "a" "ab" 1 1 1 (by decide) (by decide) (by decide) (by decide)]
  norm_num

/-- Fixture value: the modelled ratio of "ac" against "ab" is one half. -/
lemma qr_ac_ab : quick_ratio "ac" "ab" = 1 / 2 := by
  rw [ quick_ratio_eval "ac" "ab" 1 2 2 (by decide) (by decide) (by decide) (by decide)]
  norm_num

/-- Fixture value: the modelled ratio of "acb" against "abc" is 1. -/
lemma qr_acb_abc : quick_ratio "acb" "abc" = 1 := by
  rw [ quick_ratio_eval "acb" "abc" 3 3 3 (by decide) (by decide) (by decide) (by decide)]
  norm_num

/-- Fixture value: the modelled ratio of "abc" against "abz" is two thirds. -/
lemma qr_abc_abz : quick_ratio "abc" "abz" = 2 / 3 := by
  rw [ quick_ratio_eval "abc" "abz" 2 3 3 (by decide) (by decide) (by decide) (by decide)]
  norm_num

/-- The untruncated section 4.2 formula on "a" and "ab" gives two thirds. -/
lemma qrc_a_ab : quick_ratio_claimed "a" "ab" = 2 / 3 := by
  rw [ quick_ratio_claimed_eval "a" "ab" 1 1 2 (by decide) (by decide) (by decide) (by decide)]
  norm_num

/-- The prefix-match count never exceeds the query's length. -/
lemma prefixMatches_le_left : ∀ l r : List Char, prefixMatches l r ≤ l.length := by
  intro l
  induction l with
  | nil => intro r; cases r <;> simp [prefixMatches]
  | cons x xs ih =>
    intro r
    cases r with
    | nil => simp [prefixMatches]
    | cons y ys =>
      by_cases hxy : x = y
      · simp only [prefixMatches, if_pos hxy, List.length_cons]
        exact Nat.succ_le_succ (ih ys)
      · simp [prefixMatches, if_neg hxy]

/-- The prefix-match count never exceeds the candidate's length. -/
lemma prefixMatches_le_right : ∀ l r : List Char, prefixMatches l r ≤ r.length := by
  intro l
  induction l with
  | nil => intro r; cases r <;> simp [prefixMatches]
  | cons x xs ih =>
    intro r
    cases r with
    | nil => simp [prefixMatches]
    | cons y ys =>
      by_cases hxy : x = y
      · simp only [prefixMatches, if_pos hxy, List.length_cons]
        exact Nat.succ_le_succ (ih ys)
      · simp [prefixMatches, if_neg hxy]

/-- Up to the prefix-match count, the two strings agree. -/
lemma take_prefixMatches_eq : ∀ l r : List Char,
    l.take (prefixMatches l r) = r.take (prefixMatches l r) := by
  intro l
  induction l with
  | nil => intro r; cases r <;> simp [prefixMatches]
  | cons x xs ih =>
    intro r
    cases r with
    | nil => simp [prefixMatches]
    | cons y ys =>
      by_cases hxy : x = y
      · subst hxy
        have hpm : prefixMatches (x :: xs) (x :: ys) = prefixMatches xs ys + 1 := by
          simp [prefixMatches]
        rw [hpm, List.take_succ_cons, List.take_succ_cons, ih ys]
      · have hpm : prefixMatches (x :: xs) (y :: ys) = 0 := by
          simp [prefixMatches, hxy]
        rw [hpm]
        rfl

/-- Any common prefix of the two strings is at most the prefix-match count
long: the count is the length of the longest common literal prefix. -/
lemma le_prefixMatches_of_take_eq : ∀ (l r : List Char) (k : Nat),
    l.take k = r.take k → k ≤ l.length → k ≤ r.length → k ≤ prefixMatches l r := by
  intro l
  induction l with
  | nil =>
    intro r k _ hk _
    simp at hk
    omega
  | cons x xs ih =>
    intro r k htake hkl hkr
    cases r with
    | nil =>
      simp at hkr
      omega
    | cons y ys =>
      cases k with
      | zero => exact Nat.zero_le _
      | succ k =>
        simp only [List.take_succ_cons, List.cons.injEq] at htake
        have hxy : x = y := htake.1
        simp only [prefixMatches, if_pos hxy]
        have := ih ys k htake.2 (by simpa using hkl) (by simpa using hkr)
        omega

/-- Claim C1: `metrics` applied to the query "ab" and the candidate "abab"
returns `prefix_matches = 2` and `edit_distance = 0` -- the shared literal
prefix is "ab", and on the prefix window the candidate coincides with the
query, so the windowed distance vanishes. -/
theorem C1_metrics_seed :
    (metrics "ab" "abab").prefix_matches = 2 ∧ (metrics "ab" "abab").edit_distance = 0 := by
  decide

/-- Claim C2, counterexample: at the query "ab" and candidate "abab" the
`edit_distance` field is `0`, while `dl_distance("ab", "abab")` is `2`, so
`edit_distance` does not equal the distance to the whole candidate as the
claim states. -/
theorem C2_counterexample :
    (metrics "ab" "abab").edit_distance = 0
    ∧ dl_distance "ab" "abab" = 2
    ∧ ¬(metrics "ab" "abab").edit_distance = dl_distance "ab" "abab" := by
  decide

/-- Claim C2 as amended: `prefix_matches` is the length of the longest common
literal prefix (it is a common-prefix length, bounded by both strings, and no
longer common prefix exists), and `edit_distance` is `dl_distance` of the
query against the candidate truncated to the query's length -- the shared
prefix window -- rather than against the whole candidate. -/
theorem C2_amended (cword cand : String) :
    ((metrics cword cand).prefix_matches ≤ cword.data.length
      ∧ (metrics cword cand).prefix_matches ≤ cand.data.length
      ∧ cword.data.take (metrics cword cand).prefix_matches
          = cand.data.take (metrics cword cand).prefix_matches
      ∧ ∀ k, cword.data.take k = cand.data.take k →
          k ≤ cword.data.length → k ≤ cand.data.length →
          k ≤ (metrics cword cand).prefix_matches)
    ∧ (metrics cword cand).edit_distance
        = dl_distance cword ⟨cand.data.take cword.data.length⟩ :=
  ⟨⟨prefixMatches_le_left _ _, prefixMatches_le_right _ _, take_prefixMatches_eq _ _,
    fun k hk hkl hkr => le_prefixMatches_of_take_eq _ _ k hk hkl hkr⟩, rfl⟩

/-- Witness for the amended claim C2 at the seed pair: the inner bound applies
at the concrete common prefix "ab" of length 2, and the window equation holds
at the concrete strings. -/
theorem C2_amended_witness :
    2 ≤ (metrics "ab" "abab").prefix_matches
    ∧ (metrics "ab" "abab").edit_distance
        = dl_distance "ab" ⟨"abab".data.take "ab".data.length⟩ :=
  ⟨(C2_amended "ab" "abab").1.2.2.2 2 (by decide) (by decide) (by decide),
    (C2_amended "ab" "abab").2⟩

/-- Claim C3, counterexample: at `lhs = "a"`, `rhs = "ab"` the modelled
`quick_ratio` -- pinned to `1` by the repository's own reference test
`QuickRatio.test_1` -- differs from the claimed formula
`2 * matches / (len lhs + len rhs)`, which gives `2/3` there. -/
theorem C3_counterexample :
    quick_ratio "a" "ab" = 1
    ∧ quick_ratio_claimed "a" "ab" = 2 / 3
    ∧ ¬quick_ratio "a" "ab" = quick_ratio_claimed "a" "ab" := by
  refine ⟨qr_a_ab, qrc_a_ab, ?_⟩
  rw [qr_a_ab, qrc_a_ab]
  norm_num

/-- Claim C3 as amended: the formula `2 * matches / (len lhs + len rhs)` holds
whenever the two strings have equal length (truncation to the shorter length
is then the identity), and the both-empty case gives `1` with no division by
zero; in general the two strings are first cut to the shorter length. -/
theorem C3_amended :
    (∀ lhs rhs : String, lhs.data.length = rhs.data.length →
      quick_ratio lhs rhs = quick_ratio_claimed lhs rhs)
    ∧ quick_ratio "" "" = 1 := by
  constructor
  · intro lhs rhs h
    have hmin : min lhs.data.length rhs.data.length = lhs.data.length := by omega
    have h1 : lhs.data.take (min lhs.data.length rhs.data.length) = lhs.data := by
      rw [hmin]
      exact List.take_length _
    have h2 : rhs.data.take (min lhs.data.length rhs.data.length) = rhs.data := by
      rw [hmin, h]
      exact List.take_length _
    simp only [ quick_ratio, quick_ratio_claimed, h1, h2]
  · simp [ quick_ratio]

/-- Witness for the amended claim C3 at the equal-length pair ("ac", "ab")
and at the both-empty pair. -/
theorem C3_amended_witness :
    quick_ratio "ac" "ab" = quick_ratio_claimed "ac" "ab" ∧ quick_ratio "" "" = 1 :=
  ⟨C3_amended.1 "ac" "ab" (by decide), C3_amended.2⟩

/-- Claim C4: the four quick-ratio fixtures of the reference tests -- 1 on
("a", "ab"), one half on ("ac", "ab"), 1 on ("acb", "abc") and two thirds on
("abc", "abz") -- hold of the modelled `quick_ratio` exactly. -/
theorem C4_quick_ratio_values :
    quick_ratio "a" "ab" = 1
    ∧ quick_ratio "ac" "ab" = 1 / 2
    ∧ quick_ratio "acb" "abc" = 1
    ∧ quick_ratio "abc" "abz" = 2 / 3 :=
  ⟨qr_a_ab, qr_ac_ab, qr_acb_abc, qr_abc_abz⟩

/-- Claim C5: the spec-modelled section 4.1 dynamic program evaluated at the
eight fixture pairs of `EditD`.  It matches the claimed values on
("", ""), ("a", "b"), ("cac", "aca") and ("", "abc"), but yields 3 on
("ca", "abc") where the claim and test say 2, 2 on ("cacaca", "acacac") where
they say 3, 3 on ("ab", "bca") where they say 2, and 2 on ("badc", "abcd")
where they say 3 -- so the section 4.1 recurrence cannot be the algorithm the
repository's tests were written against. -/
theorem C5_dl_model_values :
    dl_distance "" "" = 0
    ∧ dl_distance "a" "b" = 1
    ∧ dl_distance "ca" "abc" = 3
    ∧ dl_distance "cac" "aca" = 2
    ∧ dl_distance "cacaca" "acacac" = 2
    ∧ dl_distance "" "abc" = 3
    ∧ dl_distance "ab" "bca" = 3
    ∧ dl_distance "badc" "abcd" = 2 := by
  decide

/-- Claim C6: an adjacent transposition costs 1, so the distance between "ab"
and "ba" is 1, not the 2 of two substitutions -- the recurrence takes the
minimum with the transposition cost whenever its guard holds, hence prefers
it exactly when it is strictly cheaper. -/
theorem C6_transposition : dl_distance "ab" "ba" = 1 ∧ ¬dl_distance "ab" "ba" = 2 := by
  decide

/-- Claim C7: `dl_distance` is symmetric in its two arguments. -/
theorem C7_dl_symm (a b : String) : dl_distance a b = dl_distance b a :=
  osaGo_symm a.data b.data (a.data.length + b.data.length) _ _ le_rfl

/-- Claim C8: `dl_distance a b = 0` exactly when `a` and `b` are
character-for-character identical; in particular the distance of a string to
itself is 0, and distinct strings are at positive distance. -/
theorem C8_dl_zero_iff (a b : String) : dl_distance a b = 0 ↔ a = b := by
  have h := osaGo_eq_zero_iff a.data b.data (a.data.length + b.data.length)
    a.data.length b.data.length le_rfl le_rfl le_rfl
  rw [List.take_length, List.take_length] at h
  simp only [dl_distance]
  exact h.trans ⟨fun hd => String.ext hd, fun he => by rw [he]⟩

/-- Claim C9: the `Completion` record does declare `label`, `sort_by` and
the float `weight_adjust`, but it has no `tie_breaker` field, so the tags
worker's constructor call -- which passes `tie_breaker=` and omits the
required `label`, `sort_by`, `weight_adjust` and `icon_match` -- cannot
succeed under dataclass keyword-call semantics. -/
theorem C9_completion_call_mismatch :
    completionFieldNames.contains "label" = true
    ∧ completionFieldNames.contains "sort_by" = true
    ∧ completionFieldNames.contains "weight_adjust" = true
    ∧ completionFieldNames.contains "tie_breaker" = false
    ∧ dataclassCallOk completionFieldNames completionRequiredFieldNames
        tagsWorkerCompletionKwargs = false := by
  decide

/-- Claim C10: `sanitize` acts on each variant as the source's branch chain
does -- a `SnippetRangeEdit` becomes a `SnippetEdit` with the same grammar
and text when its fallback equals its new text and otherwise a plain `Edit`
holding the fallback; a plain `SnippetEdit` is returned unchanged; a
`RangeEdit` becomes a plain `Edit` holding the fallback; every other edit
becomes a plain `Edit` with the same new text -- and consequently the result
is never a `RangeEdit` nor a `SnippetRangeEdit`. -/
theorem C10_sanitize_cases :
    (∀ nt fb bp ep enc g,
        sanitize (.snippetRange nt fb bp ep enc g)
          = if fb = nt then .snippet nt g else .plain fb)
    ∧ (∀ nt g, sanitize (.snippet nt g) = .snippet nt g)
    ∧ (∀ nt fb bp ep enc, sanitize (.range nt fb bp ep enc) = .plain fb)
    ∧ (∀ nt, sanitize (.plain nt) = .plain nt)
    ∧ (∀ nt p1 p2 s1, sanitize (.contextual nt p1 p2 s1) = .plain nt)
    ∧ (∀ e : Edit, isRangeEdit (sanitize e) = false ∧ isSnippetRangeEdit (sanitize e) = false) := by
  refine ⟨fun nt fb bp ep enc g => rfl, fun nt g => rfl, fun nt fb bp ep enc => rfl,
    fun nt => rfl, fun nt p1 p2 s1 => rfl, fun e => ?_⟩
  cases e with
  | snippetRange nt fb bp ep enc g =>
    by_cases h : fb = nt
    · simp [sanitize, h, isRangeEdit, isSnippetRangeEdit]
    · simp [sanitize, h, isRangeEdit, isSnippetRangeEdit]
  | _ => simp [sanitize, isRangeEdit, isSnippetRangeEdit]
